import Mathlib

/-!
# Verification of the `Universe` (Game of Life) implementation

Shallow embedding of `src/lib.rs` from the `rust-wasm-game-of-life`
repository, together with proofs settling the specification claims.

Modelling conventions:
* `FixedBitSet` is modelled as a `List Bool` holding its bits
  (length = capacity in bits).  Indexing via the `Index` impl
  (`self.cells[idx]`, which returns `false` out of range) is `fbGet`;
  `FixedBitSet::set`, which panics out of range, is `fbSet` returning
  `Option`.  Panics in general are modelled by `Option.none`.
* `u32` arithmetic wraps modulo `2^32` (release-build semantics of the
  shipped wasm artifact): subtraction is `u32sub`, and the `u32`
  additions/multiplications that can overflow carry an explicit `% U32`.
* The construction-time randomness source (`js_sys::Math::random`) is an
  external collaborator; it is passed in as a boolean seed function.
-/

namespace GameOfLife

/-- `2^32`, the modulus of `u32` arithmetic. -/
def U32 : Nat := 4294967296

/-- Wrapping `u32` subtraction `a - b` (for `b ≤ U32`). -/
def u32sub (a b : Nat) : Nat := (a + U32 - b) % U32

/-- `FixedBitSet` indexing (`self.cells[idx]` via the `Index` impl):
out-of-range bits read as `false`. -/
def fbGet (s : List Bool) (i : Nat) : Bool := s.getD i false

/-- `FixedBitSet::set`: writes bit `i`, panicking (`none`) when
`i` is not below the capacity. -/
def fbSet (s : List Bool) (i : Nat) (b : Bool) : Option (List Bool) :=
  if i < s.length then some (s.set i b) else none

/-- The `Universe` struct: dimensions plus the bit-packed cell array. -/
structure Universe where
  width : Nat
  height : Nat
  cells : List Bool
deriving DecidableEq

/-- `Universe::get_index`: `(row * self.width + column) as usize`
(computed in 32-bit arithmetic). -/
def get_index (u : Universe) (row column : Nat) : Nat :=
  (row * u.width + column) % U32

/-- `Universe::live_neighbor_count`: sums the eight wrapped neighbours'
bits, following the source's branch-based wraparound. -/
def live_neighbor_count (u : Universe) (row column : Nat) : Nat :=
  let north := if row = 0 then u32sub u.height 1 else row - 1
  let south := if row = u32sub u.height 1 then 0 else (row + 1) % U32
  let west := if column = 0 then u32sub u.width 1 else column - 1
  let east := if column = u32sub u.width 1 then 0 else (column + 1) % U32
  (fbGet u.cells (get_index u north west)).toNat +
    (fbGet u.cells (get_index u north column)).toNat +
    (fbGet u.cells (get_index u north east)).toNat +
    (fbGet u.cells (get_index u row west)).toNat +
    (fbGet u.cells (get_index u row east)).toNat +
    (fbGet u.cells (get_index u south west)).toNat +
    (fbGet u.cells (get_index u south column)).toNat +
    (fbGet u.cells (get_index u south east)).toNat

/-- The `match (cell, live_neighbors)` arm of `Universe::tick`. -/
def nextState (cell : Bool) (liveNeighbors : Nat) : Bool :=
  if cell = true ∧ liveNeighbors < 2 then false
  else if cell = true ∧ (liveNeighbors = 2 ∨ liveNeighbors = 3) then true
  else if cell = true ∧ liveNeighbors > 3 then false
  else if cell = false ∧ liveNeighbors = 3 then true
  else cell

/-- `Universe::tick`: clones the cell array, writes every cell's next
state into the clone (reading only the pre-tick `self.cells`), then
replaces the array. -/
def tick (u : Universe) : Option Universe :=
  ((List.range u.height).foldlM (fun next row =>
      (List.range u.width).foldlM (fun next col =>
          fbSet next (get_index u row col)
            (nextState (fbGet u.cells (get_index u row col))
              (live_neighbor_count u row col)))
        next)
    u.cells).map (fun next => { u with cells := next })

/-- `Universe::new`: fixed 64×64 dimensions; every bit of the
freshly-zeroed 4096-bit array is then set from the boolean seed source
(`js_sys::Math::random() < 0.5` in the source). All writes are
in range, so the in-place `set` loop is a plain fold. -/
def Universe.new (seed : Nat → Bool) : Universe :=
  let width := 64
  let height := 64
  let size := width * height
  { width := width, height := height,
    cells := (List.range size).foldl (fun cells i => cells.set i (seed i))
      (List.replicate size false) }

/-- `Universe::set_width`: stores the new width, then clears the first
`self.width * self.height` bits in place (u32 product). The backing
array is not reallocated; the loop panics if it runs past capacity. -/
def set_width (u : Universe) (width : Nat) : Option Universe :=
  ((List.range ((width * u.height) % U32)).foldlM
      (fun cells i => fbSet cells i false) u.cells).map
    (fun cells => { u with width := width, cells := cells })

/-- `Universe::set_height`: same, storing the new height first. -/
def set_height (u : Universe) (height : Nat) : Option Universe :=
  ((List.range ((u.width * height) % U32)).foldlM
      (fun cells i => fbSet cells i false) u.cells).map
    (fun cells => { u with height := height, cells := cells })

/-- `Universe::toggle_cell`: reads bit `get_index(row, column)` and
writes its flipped value, with no bounds check on the coordinates. -/
def toggle_cell (u : Universe) (row column : Nat) : Option Universe :=
  let idx := get_index u row column
  (fbSet u.cells idx
      (match fbGet u.cells idx with
        | true => false
        | false => true)).map
    (fun cells => { u with cells := cells })

/-- `Universe::set_cells`: marks each listed `(row, col)` alive, with no
bounds check on the coordinates. -/
def set_cells (u : Universe) (coords : List (Nat × Nat)) : Option Universe :=
  (coords.foldlM (fun cells rc => fbSet cells (get_index u rc.1 rc.2) true)
      u.cells).map
    (fun cells => { u with cells := cells })

/-- The 3×3 glider stamp of `Universe::insert_glider`, row-major. -/
def gliderPattern : List Bool :=
  [false, true, false,
   false, false, true,
   true, true, true]

/-- `Universe::insert_glider`: bounds guard (u32 arithmetic, so
`self.height - 2` wraps when `height < 2`), then stamps the 3×3 pattern
over rows `row-1 .. row+1`, columns `column-1 .. column+1`, incrementing
the pattern index per inner iteration. The pattern reads are always in
range (index < 9), so `getD` is exact. -/
def insert_glider (u : Universe) (row column : Nat) : Option Universe :=
  if row < 1 ∨ column < 1 ∨ row > u32sub u.height 2 ∨ column > u32sub u.width 2 then
    some u
  else
    ((List.range' (row - 1) ((row + 2) % U32 - (row - 1))).foldlM
        (fun (st : List Bool × Nat) i =>
          (List.range' (column - 1) ((column + 2) % U32 - (column - 1))).foldlM
            (fun (st : List Bool × Nat) j =>
              (fbSet st.1 (get_index u i j) (gliderPattern.getD st.2 false)).map
                (fun cells => (cells, st.2 + 1)))
            st)
        (u.cells, 0)).map
      (fun st => { u with cells := st.1 })

/-- The 15×15 pulsar stamp of `Universe::insert_pulsar`, row-major. -/
def pulsarPattern : List Bool :=
  [false, false, false, false, false, false, false, false, false, false, false, false, false, false, false,
   false, false, false, true, true, true, false, false, false, true, true, true, false, false, false,
   false, false, false, false, false, false, false, false, false, false, false, false, false, false, false,
   false, true, false, false, false, false, true, false, true, false, false, false, false, true, false,
   false, true, false, false, false, false, true, false, true, false, false, false, false, true, false,
   false, true, false, false, false, false, true, false, true, false, false, false, false, true, false,
   false, false, false, true, true, true, false, false, false, true, true, true, false, false, false,
   false, false, false, false, false, false, false, false, false, false, false, false, false, false, false,
   false, false, false, true, true, true, false, false, false, true, true, true, false, false, false,
   false, true, false, false, false, false, true, false, true, false, false, false, false, true, false,
   false, true, false, false, false, false, true, false, true, false, false, false, false, true, false,
   false, true, false, false, false, false, true, false, true, false, false, false, false, true, false,
   false, false, false, false, false, false, false, false, false, false, false, false, false, false, false,
   false, false, false, true, true, true, false, false, false, true, true, true, false, false, false,
   false, false, false, false, false, false, false, false, false, false, false, false, false, false, false]

/-- `Universe::insert_pulsar`: bounds guard (u32 arithmetic, so
`self.height - 8` wraps when `height < 8`), then stamps the 15×15
pattern over rows `row-7 .. row+7`, columns `column-7 .. column+7`. -/
def insert_pulsar (u : Universe) (row column : Nat) : Option Universe :=
  if row < 7 ∨ column < 7 ∨ row > u32sub u.height 8 ∨ column > u32sub u.width 8 then
    some u
  else
    ((List.range' (row - 7) ((row + 8) % U32 - (row - 7))).foldlM
        (fun (st : List Bool × Nat) i =>
          (List.range' (column - 7) ((column + 8) % U32 - (column - 7))).foldlM
            (fun (st : List Bool × Nat) j =>
              (fbSet st.1 (get_index u i j) (pulsarPattern.getD st.2 false)).map
                (fun cells => (cells, st.2 + 1)))
            st)
        (u.cells, 0)).map
      (fun st => { u with cells := st.1 })

/-- Helper for `chunksOf`: structural recursion on a fuel that bounds
the list length (each step consumes at least one element). -/
def chunksOfAux {α : Type} (fuel n : Nat) (l : List α) : List (List α) :=
  match fuel, l with
  | _, [] => []
  | 0, _ :: _ => []
  | fuel + 1, x :: xs => (x :: xs).take n :: chunksOfAux fuel n (xs.drop (n - 1))

/-- Splits a list into consecutive chunks of `n` elements (the behaviour
of slice `chunks(n)` for `n > 0`; `chunks(0)` panics in Rust and every
caller guards it). -/
def chunksOf {α : Type} (n : Nat) (l : List α) : List (List α) :=
  chunksOfAux l.length n l

/-- Value of one `u32` block of a `FixedBitSet`, bit `k` of the block
being bit `32*b + k` of the set (little-endian within the block). -/
def blockVal (bits : List Bool) : Nat :=
  bits.foldr (fun b acc => b.toNat + 2 * acc) 0

/-- `FixedBitSet::as_slice()`: the backing `u32` blocks
(`⌈capacity/32⌉` of them, unused tail bits zero). -/
def fbBlocks (bits : List Bool) : List Nat :=
  (chunksOf 32 bits).map blockVal

/-- The `fmt::Display` impl backing `Universe::render`: iterates
`self.cells.as_slice().chunks(self.width)` — i.e. the packed **u32
blocks**, not the cells — printing one glyph per block (the dead glyph
iff the whole 32-bit block is `0`) and a newline per chunk.
`chunks(0)` panics, modelled as `none`. -/
def render (u : Universe) : Option String :=
  if u.width = 0 then none
  else
    some (String.join ((chunksOf u.width (fbBlocks u.cells)).map
      (fun line =>
        String.mk (line.map (fun cell => if cell = 0 then '◻' else '◼')) ++ "\n")))

/-! ## Basic facts about the bit-set model -/

lemma fbGet_oob (l : List Bool) {i : Nat} (h : l.length ≤ i) : fbGet l i = false :=
  List.getD_eq_default _ _ h

lemma fbGet_set_self (l : List Bool) (i : Nat) (b : Bool) (h : i < l.length) :
    fbGet (l.set i b) i = b := by
  induction l generalizing i with
  | nil => simp at h
  | cons x xs ih =>
    cases i with
    | zero => rfl
    | succ j =>
      simp only [List.set_cons_succ, fbGet, List.getD_cons_succ]
      exact ih j (by simpa using h)

lemma fbGet_set_ne (l : List Bool) (i j : Nat) (b : Bool) (h : i ≠ j) :
    fbGet (l.set i b) j = fbGet l j := by
  induction l generalizing i j with
  | nil => rfl
  | cons x xs ih =>
    cases i with
    | zero =>
      cases j with
      | zero => exact absurd rfl h
      | succ j' => rfl
    | succ i' =>
      cases j with
      | zero => rfl
      | succ j' =>
        simp only [List.set_cons_succ, fbGet, List.getD_cons_succ]
        exact ih i' j' (fun hc => h (by rw [hc]))

lemma eq_of_fbGet (l₁ l₂ : List Bool) (hl : l₁.length = l₂.length)
    (h : ∀ i, fbGet l₁ i = fbGet l₂ i) : l₁ = l₂ := by
  induction l₁ generalizing l₂ with
  | nil => cases l₂ with
    | nil => rfl
    | cons y ys => simp at hl
  | cons x xs ih =>
    cases l₂ with
    | nil => simp at hl
    | cons y ys =>
      have h0 := h 0
      simp only [fbGet, List.getD_cons_zero] at h0
      have : xs = ys := ih ys (by simpa using hl) (fun i => by
        have := h (i + 1)
        simpa only [fbGet, List.getD_cons_succ] using this)
      rw [h0, this]

/-! ## u32 arithmetic and row-major indexing facts -/

lemma u32sub_eq {a b : Nat} (hb : 1 ≤ b) (hba : b ≤ a) (ha : a ≤ U32) :
    u32sub a b = a - b := by
  simp only [u32sub, U32] at *
  omega

lemma idx_lt {w h r c : Nat} (hr : r < h) (hc : c < w) : r * w + c < w * h := by
  have h2 : (r + 1) * w ≤ h * w := Nat.mul_le_mul_right w hr
  have h3 : r * w + c < (r + 1) * w := by rw [Nat.succ_mul]; omega
  rw [Nat.mul_comm w h]
  omega

lemma gidx_elim (u : Universe) (hU : u.width * u.height ≤ U32) {r c : Nat}
    (hr : r < u.height) (hc : c < u.width) : get_index u r c = r * u.width + c :=
  Nat.mod_eq_of_lt (lt_of_lt_of_le (idx_lt hr hc) hU)

lemma rowmajor_inj {w r₁ c₁ r₂ c₂ : Nat} (h₁ : c₁ < w) (h₂ : c₂ < w) :
    r₁ * w + c₁ = r₂ * w + c₂ ↔ r₁ = r₂ ∧ c₁ = c₂ := by
  constructor
  · intro h
    have hw : 0 < w := Nat.pos_of_ne_zero (fun hz => by omega)
    have d₁ : (r₁ * w + c₁) / w = r₁ := by
      rw [Nat.mul_comm r₁ w, Nat.mul_add_div hw, Nat.div_eq_of_lt h₁, Nat.add_zero]
    have d₂ : (r₂ * w + c₂) / w = r₂ := by
      rw [Nat.mul_comm r₂ w, Nat.mul_add_div hw, Nat.div_eq_of_lt h₂, Nat.add_zero]
    have m₁ : (r₁ * w + c₁) % w = c₁ := by
      rw [Nat.mul_comm r₁ w, Nat.mul_add_mod, Nat.mod_eq_of_lt h₁]
    have m₂ : (r₂ * w + c₂) % w = c₂ := by
      rw [Nat.mul_comm r₂ w, Nat.mul_add_mod, Nat.mod_eq_of_lt h₂]
    refine ⟨?_, ?_⟩
    · rw [← d₁, ← d₂, h]
    · rw [← m₁, ← m₂, h]
  · rintro ⟨rfl, rfl⟩; rfl

lemma gidx_eq_iff (u : Universe) (hU : u.width * u.height ≤ U32) {pr pc a b : Nat}
    (hpr : pr < u.height) (hpc : pc < u.width) (_ha : a < u.height) (hb : b < u.width) :
    get_index u pr pc = a * u.width + b ↔ pr = a ∧ pc = b := by
  rw [gidx_elim u hU hpr hpc, rowmajor_inj hpc hb]

lemma gidx_inj (u : Universe) (hU : u.width * u.height ≤ U32) {r₁ c₁ r₂ c₂ : Nat}
    (h₁ : r₁ < u.height) (h₂ : c₁ < u.width) (h₃ : r₂ < u.height) (h₄ : c₂ < u.width) :
    get_index u r₁ c₁ = get_index u r₂ c₂ ↔ r₁ = r₂ ∧ c₁ = c₂ := by
  rw [gidx_elim u hU h₁ h₂, gidx_elim u hU h₃ h₄, rowmajor_inj h₂ h₄]

/-! ## A generic lemma about in-place write loops over the bit set -/

/-- A fold of in-range `fbSet` writes succeeds; every written index holds
its (coherent) written value and every untouched index is unchanged. -/
lemma writes_loop {α : Type} (f : α → Nat) (g : α → Bool) (xs : List α) (l : List Bool)
    (hb : ∀ x ∈ xs, f x < l.length)
    (hcoh : ∀ x ∈ xs, ∀ y ∈ xs, f x = f y → g x = g y) :
    ∃ res, xs.foldlM (fun cells x => fbSet cells (f x) (g x)) l = some res ∧
      res.length = l.length ∧
      (∀ x ∈ xs, fbGet res (f x) = g x) ∧
      (∀ i, (∀ x ∈ xs, f x ≠ i) → fbGet res i = fbGet l i) := by
  induction xs generalizing l with
  | nil => exact ⟨l, rfl, rfl, by simp, fun i _ => rfl⟩
  | cons x xs ih =>
    have hx : f x < l.length := hb x (List.mem_cons_self x xs)
    obtain ⟨res, hfold, hlen, hwrite, hframe⟩ := ih (l.set (f x) (g x))
      (fun y hy => by rw [List.length_set]; exact hb y (List.mem_cons_of_mem x hy))
      (fun a ha b hb' hab =>
        hcoh a (List.mem_cons_of_mem x ha) b (List.mem_cons_of_mem x hb') hab)
    refine ⟨res, ?_, hlen.trans (List.length_set l _ _), ?_, ?_⟩
    · rw [List.foldlM_cons]
      have hset : fbSet l (f x) (g x) = some (l.set (f x) (g x)) := by
        simp [fbSet, hx]
      rw [hset]
      simpa using hfold
    · intro a ha
      rcases List.mem_cons.mp ha with rfl | ha'
      · by_cases hdup : ∃ y ∈ xs, f y = f a
        · obtain ⟨y, hy, hfy⟩ := hdup
          have hg : g y = g a :=
            hcoh y (List.mem_cons_of_mem a hy) a (List.mem_cons_self a xs) hfy
          rw [← hfy, hwrite y hy, hg]
        · push_neg at hdup
          rw [hframe (f a) hdup, fbGet_set_self l (f a) (g a) hx]
      · exact hwrite a ha'
    · intro i hi
      rw [hframe i (fun y hy => hi y (List.mem_cons_of_mem x hy)),
        fbGet_set_ne _ _ _ _ (hi x (List.mem_cons_self x xs))]

/-! ## Characterization of `tick` -/

/-- The outer row loop of `tick`, processed over an arbitrary row list. -/
lemma tick_loop (u : Universe) (hlen : u.cells.length = u.width * u.height)
    (hU : u.width * u.height ≤ U32) (rows : List Nat) (hrows : ∀ r ∈ rows, r < u.height) :
    ∀ (acc : List Bool), acc.length = u.cells.length →
    ∃ res, (rows.foldlM (fun next row =>
        (List.range u.width).foldlM (fun next col =>
            fbSet next (get_index u row col)
              (nextState (fbGet u.cells (get_index u row col))
                (live_neighbor_count u row col)))
          next) acc) = some res ∧
      res.length = acc.length ∧
      (∀ ρ ∈ rows, ∀ c, c < u.width →
        fbGet res (get_index u ρ c) =
          nextState (fbGet u.cells (get_index u ρ c)) (live_neighbor_count u ρ c)) ∧
      (∀ i, (∀ ρ ∈ rows, ∀ c, c < u.width → get_index u ρ c ≠ i) →
        fbGet res i = fbGet acc i) := by
  induction rows with
  | nil => exact fun acc _ => ⟨acc, rfl, rfl, by simp, fun i _ => rfl⟩
  | cons ρ rows ih =>
    intro acc hacc
    have hρ : ρ < u.height := hrows ρ (List.mem_cons_self ρ rows)
    obtain ⟨acc₁, hfold₁, hlen₁, hwrite₁, hframe₁⟩ :=
      writes_loop (fun c => get_index u ρ c)
        (fun c => nextState (fbGet u.cells (get_index u ρ c)) (live_neighbor_count u ρ c))
        (List.range u.width) acc
        (fun c hc => by
          have hcw : c < u.width := List.mem_range.mp hc
          show get_index u ρ c < acc.length
          rw [gidx_elim u hU hρ hcw, hacc, hlen]
          exact idx_lt hρ hcw)
        (fun c₁ h₁ c₂ h₂ heq => by
          obtain ⟨-, rfl⟩ := (gidx_inj u hU hρ (List.mem_range.mp h₁) hρ
            (List.mem_range.mp h₂)).mp heq
          rfl)
    obtain ⟨res, hfold, hlenr, hwrite, hframe⟩ :=
      ih (fun r hr => hrows r (List.mem_cons_of_mem ρ hr)) acc₁ (hlen₁.trans hacc)
    refine ⟨res, ?_, hlenr.trans hlen₁, ?_, ?_⟩
    · rw [List.foldlM_cons, hfold₁]
      simpa using hfold
    · intro r hr c hcw
      rcases List.mem_cons.mp hr with rfl | hr'
      · by_cases hdup : ∃ r' ∈ rows, ∃ c', c' < u.width ∧
          get_index u r' c' = get_index u r c
        · obtain ⟨r', hr', c', hc', heq⟩ := hdup
          obtain ⟨rfl, rfl⟩ := (gidx_inj u hU (hrows r' (List.mem_cons_of_mem r hr'))
            hc' hρ hcw).mp heq
          exact hwrite r' hr' c' hc'
        · push_neg at hdup
          rw [hframe (get_index u r c) (fun r' hr' c' hc' => hdup r' hr' c' hc')]
          exact hwrite₁ c (List.mem_range.mpr hcw)
      · exact hwrite r hr' c hcw
    · intro i hi
      rw [hframe i (fun r hr c hc => hi r (List.mem_cons_of_mem ρ hr) c hc),
        hframe₁ i (fun c hc => hi ρ (List.mem_cons_self ρ rows) c (List.mem_range.mp hc))]

/-- `tick` succeeds on a well-formed universe, preserves the dimensions
and array length, and sets every cell to the transition function of its
pre-tick state and pre-tick live-neighbour count (synchronous update). -/
lemma tick_spec (u : Universe) (hlen : u.cells.length = u.width * u.height)
    (hU : u.width * u.height ≤ U32) :
    ∃ u', tick u = some u' ∧ u'.width = u.width ∧ u'.height = u.height ∧
      u'.cells.length = u.cells.length ∧
      ∀ row col, row < u.height → col < u.width →
        fbGet u'.cells (row * u.width + col) =
          nextState (fbGet u.cells (row * u.width + col))
            (live_neighbor_count u row col) := by
  obtain ⟨res, hfold, hlenr, hwrite, -⟩ :=
    tick_loop u hlen hU (List.range u.height) (fun r hr => List.mem_range.mp hr)
      u.cells rfl
  refine ⟨{ u with cells := res }, ?_, rfl, rfl, hlenr, ?_⟩
  · unfold tick
    rw [hfold]
    rfl
  · intro row col hr hc
    have := hwrite row (List.mem_range.mpr hr) col hc
    rwa [gidx_elim u hU hr hc] at this

/-! ## C1: the tick transition applies the Life rule table -/

/-- Modelled from the spec's rule table (§4.3): an Alive cell with fewer
than 2 live neighbours dies, with 2 or 3 survives, with more than 3
dies; a Dead cell with exactly 3 live neighbours becomes Alive; every
other cell is unchanged. -/
def lifeRule (current : Bool) (neighbors : Nat) : Bool :=
  match current with
  | true => if neighbors < 2 then false
            else if neighbors = 2 ∨ neighbors = 3 then true
            else false
  | false => if neighbors = 3 then true else current

lemma nextState_eq_lifeRule (b : Bool) (n : Nat) : nextState b n = lifeRule b n := by
  cases b <;> simp only [nextState, lifeRule] <;> split_ifs <;> simp_all <;> omega

/-- C1: after one `tick` of a well-formed universe, every in-range cell
holds the spec's Life rule table applied to its pre-tick state and its
pre-tick `live_neighbor_count`; the next states are functions of the
pre-tick generation only (synchronous update). -/
theorem c1_tick_applies_life_rule (u : Universe) (row col : Nat)
    (hlen : u.cells.length = u.width * u.height)
    (hU : u.width * u.height ≤ U32)
    (hr : row < u.height) (hc : col < u.width) :
    ∃ u', tick u = some u' ∧ u'.width = u.width ∧ u'.height = u.height ∧
      fbGet u'.cells (row * u.width + col) =
        lifeRule (fbGet u.cells (row * u.width + col))
          (live_neighbor_count u row col) := by
  obtain ⟨u', h1, h2, h3, -, h5⟩ := tick_spec u hlen hU
  exact ⟨u', h1, h2, h3, by rw [h5 row col hr hc, nextState_eq_lifeRule]⟩

/-- Witness for C1: a concrete 2×2 universe with one live cell; the cell
(0,0) is Alive with 0 live neighbours and dies. -/
theorem c1_tick_applies_life_rule_witness :
    ∃ u', tick ⟨2, 2, [true, false, false, false]⟩ = some u' ∧
      u'.width = (⟨2, 2, [true, false, false, false]⟩ : Universe).width ∧
      u'.height = (⟨2, 2, [true, false, false, false]⟩ : Universe).height ∧
      fbGet u'.cells (0 * (⟨2, 2, [true, false, false, false]⟩ : Universe).width + 0) =
        lifeRule (fbGet (⟨2, 2, [true, false, false, false]⟩ : Universe).cells
            (0 * (⟨2, 2, [true, false, false, false]⟩ : Universe).width + 0))
          (live_neighbor_count ⟨2, 2, [true, false, false, false]⟩ 0 0) :=
  c1_tick_applies_life_rule ⟨2, 2, [true, false, false, false]⟩ 0 0
    (by decide) (by decide) (by decide) (by decide)

/-! ## C2: neighbour counting is the toroidal 8-neighbour sum -/

/-- Modelled from the spec: the wrapped coordinate `(x) mod n`
(mathematical modulus, non-negative representative). -/
def wrapIdx (n : Nat) (x : Int) : Nat := (x % (n : Int)).toNat

/-- The Alive value of the cell at `(r, c)` under the spec's row-major
data model (`index = row * width + column`). -/
def aliveAt (u : Universe) (r c : Nat) : Bool := fbGet u.cells (r * u.width + c)

/-- Modelled from the spec: the offsets `{-1,0,+1} × {-1,0,+1}`
excluding `(0,0)`. -/
def neighborOffsets : List (Int × Int) :=
  [(-1, -1), (-1, 0), (-1, 1), (0, -1), (0, 1), (1, -1), (1, 0), (1, 1)]

/-- Modelled from the spec: the sum of the Alive values of the 8
toroidally wrapped positions `((row+dr) mod height, (col+dc) mod width)`. -/
def neighborSumSpec (u : Universe) (row col : Nat) : Nat :=
  (neighborOffsets.map (fun d =>
    (aliveAt u (wrapIdx u.height ((row : Int) + d.1))
      (wrapIdx u.width ((col : Int) + d.2))).toNat)).sum

lemma wrapIdx_self {n r : Nat} (hr : r < n) : wrapIdx n ((r : Int) + 0) = r := by
  unfold wrapIdx
  rw [Int.add_zero, Int.emod_eq_of_lt (by positivity) (by exact_mod_cast hr)]
  exact Int.toNat_natCast r

lemma wrapIdx_pred {n r : Nat} (hr : r < n) :
    wrapIdx n ((r : Int) + -1) = if r = 0 then n - 1 else r - 1 := by
  unfold wrapIdx
  have hn : (0 : Int) < n := by exact_mod_cast Nat.pos_of_ne_zero (by omega)
  by_cases h0 : r = 0
  · subst h0
    rw [if_pos rfl, Nat.cast_zero]
    have : ((0 : Int) + -1) % n = (n : Int) - 1 := by
      have h1 : ((0 : Int) + -1 + n * 1) % n = ((0 : Int) + -1) % n :=
        Int.add_mul_emod_self_left (0 + -1) (n : Int) 1
      rw [← h1]
      have h2 : (0 : Int) + -1 + n * 1 = (n : Int) - 1 := by ring
      rw [h2, Int.emod_eq_of_lt (by omega) (by omega)]
    rw [this]
    omega
  · rw [if_neg h0, Int.emod_eq_of_lt (by omega) (by omega)]
    omega

lemma wrapIdx_succ {n r : Nat} (hr : r < n) :
    wrapIdx n ((r : Int) + 1) = if r = n - 1 then 0 else r + 1 := by
  unfold wrapIdx
  have hn : (0 : Int) < n := by exact_mod_cast Nat.pos_of_ne_zero (by omega)
  by_cases h0 : r = n - 1
  · rw [if_pos h0]
    have : ((r : Int) + 1) = (n : Int) := by omega
    rw [this, Int.emod_self]
    rfl
  · rw [if_neg h0, Int.emod_eq_of_lt (by omega) (by omega)]
    omega

lemma toNat8_le (b₁ b₂ b₃ b₄ b₅ b₆ b₇ b₈ : Bool) :
    b₁.toNat + b₂.toNat + b₃.toNat + b₄.toNat + b₅.toNat + b₆.toNat +
      b₇.toNat + b₈.toNat ≤ 8 := by
  have h₁ := Bool.toNat_le b₁
  have h₂ := Bool.toNat_le b₂
  have h₃ := Bool.toNat_le b₃
  have h₄ := Bool.toNat_le b₄
  have h₅ := Bool.toNat_le b₅
  have h₆ := Bool.toNat_le b₆
  have h₇ := Bool.toNat_le b₇
  have h₈ := Bool.toNat_le b₈
  omega

lemma live_neighbor_count_le_eight (u : Universe) (row col : Nat) :
    live_neighbor_count u row col ≤ 8 := by
  simp only [live_neighbor_count]
  exact toNat8_le _ _ _ _ _ _ _ _

/-- C2: on any universe with positive dimensions, for every in-range
coordinate, `live_neighbor_count` equals the sum of the Alive values of
the 8 toroidally wrapped neighbour positions and lies in `[0, 8]` —
including the degenerate width/height 1 cases, where the same cell is
counted through several wrap directions. -/
theorem c2_live_neighbor_count_toroidal (u : Universe) (row col : Nat)
    (hw : 1 ≤ u.width) (hh : 1 ≤ u.height)
    (hU : u.width * u.height ≤ U32)
    (hr : row < u.height) (hc : col < u.width) :
    live_neighbor_count u row col = neighborSumSpec u row col ∧
      live_neighbor_count u row col ≤ 8 := by
  refine ⟨?_, live_neighbor_count_le_eight u row col⟩
  have hhU : u.height ≤ U32 :=
    le_trans (Nat.le_mul_of_pos_left u.height hw) hU
  have hwU : u.width ≤ U32 := by
    calc u.width = u.width * 1 := (Nat.mul_one _).symm
    _ ≤ u.width * u.height := Nat.mul_le_mul_left _ hh
    _ ≤ U32 := hU
  have hN : u32sub u.height 1 = u.height - 1 := u32sub_eq (le_refl 1) hh hhU
  have hW : u32sub u.width 1 = u.width - 1 := u32sub_eq (le_refl 1) hw hwU
  have hS : (if row = u.height - 1 then 0 else (row + 1) % U32) =
      (if row = u.height - 1 then 0 else row + 1) := by
    split_ifs
    · rfl
    · exact Nat.mod_eq_of_lt (by omega)
  have hE : (if col = u.width - 1 then 0 else (col + 1) % U32) =
      (if col = u.width - 1 then 0 else col + 1) := by
    split_ifs
    · rfl
    · exact Nat.mod_eq_of_lt (by omega)
  simp only [live_neighbor_count, hN, hW]
  simp only [hS, hE]
  simp only [neighborSumSpec, neighborOffsets, List.map_cons, List.map_nil,
    List.sum_cons, List.sum_nil, wrapIdx_self hr, wrapIdx_self hc,
    wrapIdx_pred hr, wrapIdx_pred hc, wrapIdx_succ hr, wrapIdx_succ hc]
  have hNlt : (if row = 0 then u.height - 1 else row - 1) < u.height := by
    split_ifs <;> omega
  have hSlt : (if row = u.height - 1 then 0 else row + 1) < u.height := by
    split_ifs <;> omega
  have hWlt : (if col = 0 then u.width - 1 else col - 1) < u.width := by
    split_ifs <;> omega
  have hElt : (if col = u.width - 1 then 0 else col + 1) < u.width := by
    split_ifs <;> omega
  simp only [aliveAt]
  rw [gidx_elim u hU hNlt hWlt, gidx_elim u hU hNlt hc, gidx_elim u hU hNlt hElt,
    gidx_elim u hU hr hWlt, gidx_elim u hU hr hElt, gidx_elim u hU hSlt hWlt,
    gidx_elim u hU hSlt hc, gidx_elim u hU hSlt hElt]
  omega

/-- Witness for C2: the spec's own wraparound test — a 3×3 grid with
only cell (0,0) alive has `live_neighbor_count(2,2) = 1`. -/
theorem c2_live_neighbor_count_toroidal_witness :
    live_neighbor_count
        ⟨3, 3, [true, false, false, false, false, false, false, false, false]⟩ 2 2 =
      neighborSumSpec
        ⟨3, 3, [true, false, false, false, false, false, false, false, false]⟩ 2 2 ∧
      live_neighbor_count
        ⟨3, 3, [true, false, false, false, false, false, false, false, false]⟩ 2 2 ≤ 8 :=
  c2_live_neighbor_count_toroidal _ 2 2 (by decide) (by decide) (by decide)
    (by decide) (by decide)

/-! ## C10: `new` takes no dimensions and always builds a 64×64 universe -/

lemma foldl_set_length (g : Nat → Bool) (xs : List Nat) (l : List Bool) :
    (xs.foldl (fun cells i => cells.set i (g i)) l).length = l.length := by
  induction xs generalizing l with
  | nil => rfl
  | cons x xs ih =>
    rw [List.foldl_cons, ih]
    exact List.length_set l x (g x)

/-- C10: `Universe::new` takes only the external boolean seed source (no
width, height, or seed parameters of the spec's `new(width, height,
seed_fn)` shape); whatever the seed returns, the result is 64×64 with a
64*64 = 4096-bit cell array. -/
theorem c10_new_is_fixed_64_by_64 (seed : Nat → Bool) :
    (Universe.new seed).width = 64 ∧ (Universe.new seed).height = 64 ∧
      (Universe.new seed).cells.length = 64 * 64 := by
  refine ⟨rfl, rfl, ?_⟩
  simp only [Universe.new]
  rw [foldl_set_length, List.length_replicate]

/-! ## C4: resizing does not reallocate; it clears in place -/

/-- The clearing loop shared by `set_width`/`set_height`. -/
lemma clear_loop (n : Nat) (l : List Bool) (hn : n ≤ l.length) :
    ∃ res, (List.range n).foldlM (fun cells i => fbSet cells i false) l = some res ∧
      res.length = l.length ∧ (∀ i, i < n → fbGet res i = false) ∧
      (∀ i, n ≤ i → fbGet res i = fbGet l i) := by
  obtain ⟨res, h1, h2, h3, h4⟩ := writes_loop (fun x => x) (fun _ => false)
    (List.range n) l
    (fun x hx => lt_of_lt_of_le (List.mem_range.mp hx) hn)
    (fun _ _ _ _ _ => rfl)
  exact ⟨res, h1, h2, fun i hi => h3 i (List.mem_range.mpr hi),
    fun i hi => h4 i (fun x hx => by
      have := List.mem_range.mp hx
      omega)⟩

/-- C4 counterexample: on a 2×2 universe with one live bit,
`set_width 1` clears the two logical cells in place but keeps the 4-bit
backing array — its length is 4, not `1 * height = 2` — and a growing
resize (`set_width 3`) panics instead of reallocating. -/
theorem c4_counterexample :
    set_width ⟨2, 2, [false, false, false, true]⟩ 1 =
        some ⟨1, 2, [false, false, false, true]⟩ ∧
      (⟨1, 2, [false, false, false, true]⟩ : Universe).cells.length ≠
        1 * (⟨1, 2, [false, false, false, true]⟩ : Universe).height ∧
      set_width ⟨2, 2, [false, false, false, true]⟩ 3 = none := by
  refine ⟨by decide, by decide, by decide⟩

/-- C4 (amended): `set_width w` (resp. `set_height h`) replaces the
dimension and clears the first `w * height` (resp. `width * h`) bits of
the backing array in place; the array is never reallocated, so its
length is unchanged (it equals `w * height` only when that product
equals the old length), bits beyond the cleared prefix keep their old
values, and a clearing loop that runs past the capacity panics. -/
theorem c4_resize_clears_in_place (u : Universe) (w h : Nat)
    (hwU : w * u.height < U32) (hwl : w * u.height ≤ u.cells.length)
    (hhU : u.width * h < U32) (hhl : u.width * h ≤ u.cells.length) :
    (∃ u', set_width u w = some u' ∧ u'.width = w ∧ u'.height = u.height ∧
      u'.cells.length = u.cells.length ∧
      (∀ i, i < w * u.height → fbGet u'.cells i = false) ∧
      (∀ i, w * u.height ≤ i → fbGet u'.cells i = fbGet u.cells i)) ∧
    (∃ u', set_height u h = some u' ∧ u'.width = u.width ∧ u'.height = h ∧
      u'.cells.length = u.cells.length ∧
      (∀ i, i < u.width * h → fbGet u'.cells i = false) ∧
      (∀ i, u.width * h ≤ i → fbGet u'.cells i = fbGet u.cells i)) := by
  constructor
  · obtain ⟨res, h1, h2, h3, h4⟩ := clear_loop (w * u.height) u.cells hwl
    refine ⟨{ u with width := w, cells := res }, ?_, rfl, rfl, h2, h3, h4⟩
    unfold set_width
    rw [Nat.mod_eq_of_lt hwU, h1]
    rfl
  · obtain ⟨res, h1, h2, h3, h4⟩ := clear_loop (u.width * h) u.cells hhl
    refine ⟨{ u with height := h, cells := res }, ?_, rfl, rfl, h2, h3, h4⟩
    unfold set_height
    rw [Nat.mod_eq_of_lt hhU, h1]
    rfl

/-- Witness for the amended C4: shrinking the 2×2 universe to width 1
clears cells 0 and 1, keeps bit 3 alive in the backing array, and keeps
the array length 4. -/
theorem c4_resize_clears_in_place_witness :
    (∃ u', set_width ⟨2, 2, [false, false, false, true]⟩ 1 = some u' ∧
      u'.width = 1 ∧ u'.height = (⟨2, 2, [false, false, false, true]⟩ : Universe).height ∧
      u'.cells.length = (⟨2, 2, [false, false, false, true]⟩ : Universe).cells.length ∧
      (∀ i, i < 1 * (⟨2, 2, [false, false, false, true]⟩ : Universe).height →
        fbGet u'.cells i = false) ∧
      (∀ i, 1 * (⟨2, 2, [false, false, false, true]⟩ : Universe).height ≤ i →
        fbGet u'.cells i = fbGet (⟨2, 2, [false, false, false, true]⟩ : Universe).cells i)) ∧
    (∃ u', set_height ⟨2, 2, [false, false, false, true]⟩ 1 = some u' ∧
      u'.width = (⟨2, 2, [false, false, false, true]⟩ : Universe).width ∧ u'.height = 1 ∧
      u'.cells.length = (⟨2, 2, [false, false, false, true]⟩ : Universe).cells.length ∧
      (∀ i, i < (⟨2, 2, [false, false, false, true]⟩ : Universe).width * 1 →
        fbGet u'.cells i = false) ∧
      (∀ i, (⟨2, 2, [false, false, false, true]⟩ : Universe).width * 1 ≤ i →
        fbGet u'.cells i = fbGet (⟨2, 2, [false, false, false, true]⟩ : Universe).cells i)) :=
  c4_resize_clears_in_place ⟨2, 2, [false, false, false, true]⟩ 1 1
    (by decide) (by decide) (by decide) (by decide)

/-! ## C8: toggling a cell twice is the identity -/

lemma set_fbGet_self (l : List Bool) (i : Nat) : l.set i (fbGet l i) = l := by
  induction l generalizing i with
  | nil => rfl
  | cons x xs ih =>
    cases i with
    | zero => rfl
    | succ j =>
      show x :: xs.set j (fbGet (x :: xs) (j + 1)) = x :: xs
      have : fbGet (x :: xs) (j + 1) = fbGet xs j := rfl
      rw [this, ih]

/-- The cell array after one `toggle_cell` write at the raw index. -/
def toggledCells (u : Universe) (row col : Nat) : List Bool :=
  u.cells.set (get_index u row col) (!(fbGet u.cells (get_index u row col)))

/-- `toggle_cell` on an in-capacity raw index flips exactly that bit. -/
lemma toggle_cell_eq (u : Universe) (row col : Nat)
    (h : get_index u row col < u.cells.length) :
    toggle_cell u row col = some { u with cells := toggledCells u row col } := by
  unfold toggle_cell toggledCells
  cases hb : fbGet u.cells (get_index u row col) <;> simp [fbSet, h, hb]

/-- C8: on a well-formed universe and an in-range coordinate, one
`toggle_cell` flips exactly that cell — leaving every other bit and the
dimensions unchanged, and performing no tick — and a second `toggle_cell`
returns the universe to exactly its original state. -/
theorem c8_toggle_twice_restores (u : Universe) (row col : Nat)
    (hlen : u.cells.length = u.width * u.height)
    (hU : u.width * u.height ≤ U32)
    (hr : row < u.height) (hc : col < u.width) :
    ∃ u₁, toggle_cell u row col = some u₁ ∧
      u₁.width = u.width ∧ u₁.height = u.height ∧
      fbGet u₁.cells (row * u.width + col) = !(fbGet u.cells (row * u.width + col)) ∧
      (∀ i, i ≠ row * u.width + col → fbGet u₁.cells i = fbGet u.cells i) ∧
      toggle_cell u₁ row col = some u := by
  have hidx : get_index u row col = row * u.width + col := gidx_elim u hU hr hc
  have hlt : get_index u row col < u.cells.length := by
    rw [hidx, hlen]; exact idx_lt hr hc
  refine ⟨{ u with cells := toggledCells u row col },
    toggle_cell_eq u row col hlt, rfl, rfl, ?_, ?_, ?_⟩
  · rw [← hidx]
    exact fbGet_set_self u.cells _ _ hlt
  · intro i hi
    exact fbGet_set_ne u.cells (get_index u row col) i _
      (fun hx => hi (by rw [← hidx]; exact hx.symm))
  · have hidx₂ : get_index { u with cells := toggledCells u row col } row col =
        get_index u row col := rfl
    have hlt₂ : get_index { u with cells := toggledCells u row col } row col <
        ({ u with cells := toggledCells u row col } : Universe).cells.length := by
      rw [hidx₂]
      show get_index u row col < (toggledCells u row col).length
      unfold toggledCells
      rw [List.length_set]
      exact hlt
    rw [toggle_cell_eq { u with cells := toggledCells u row col } row col hlt₂]
    congr 1
    show { u with cells :=
      toggledCells { u with cells := toggledCells u row col } row col } = u
    have hcells : toggledCells { u with cells := toggledCells u row col } row col =
        u.cells := by
      unfold toggledCells
      show (toggledCells u row col).set (get_index u row col)
        (!(fbGet (toggledCells u row col) (get_index u row col))) = u.cells
      have hget : fbGet (toggledCells u row col) (get_index u row col) =
          !(fbGet u.cells (get_index u row col)) :=
        fbGet_set_self u.cells _ _ hlt
      rw [hget, Bool.not_not]
      unfold toggledCells
      rw [List.set_set, set_fbGet_self]
    rw [hcells]

/-- Witness for C8 on a concrete 2×2 universe at cell (1,0). -/
theorem c8_toggle_twice_restores_witness :
    ∃ u₁, toggle_cell ⟨2, 2, [false, true, false, false]⟩ 1 0 = some u₁ ∧
      u₁.width = (⟨2, 2, [false, true, false, false]⟩ : Universe).width ∧
      u₁.height = (⟨2, 2, [false, true, false, false]⟩ : Universe).height ∧
      fbGet u₁.cells (1 * (⟨2, 2, [false, true, false, false]⟩ : Universe).width + 0) =
        !(fbGet (⟨2, 2, [false, true, false, false]⟩ : Universe).cells
          (1 * (⟨2, 2, [false, true, false, false]⟩ : Universe).width + 0)) ∧
      (∀ i, i ≠ 1 * (⟨2, 2, [false, true, false, false]⟩ : Universe).width + 0 →
        fbGet u₁.cells i = fbGet (⟨2, 2, [false, true, false, false]⟩ : Universe).cells i) ∧
      toggle_cell u₁ 1 0 = some ⟨2, 2, [false, true, false, false]⟩ :=
  c8_toggle_twice_restores ⟨2, 2, [false, true, false, false]⟩ 1 0
    (by decide) (by decide) (by decide) (by decide)

/-! ## C9: `set_cells` marks listed cells alive and frames the rest -/

/-- C9: on a well-formed universe, `set_cells` with in-range coordinates
marks each listed cell Alive, leaves every unlisted cell's state exactly
as before, and leaves the dimensions unchanged. -/
theorem c9_set_cells_frame (u : Universe) (ps : List (Nat × Nat))
    (hlen : u.cells.length = u.width * u.height)
    (hU : u.width * u.height ≤ U32)
    (hps : ∀ p ∈ ps, p.1 < u.height ∧ p.2 < u.width) :
    ∃ u', set_cells u ps = some u' ∧ u'.width = u.width ∧ u'.height = u.height ∧
      (∀ p ∈ ps, fbGet u'.cells (p.1 * u.width + p.2) = true) ∧
      (∀ r c, r < u.height → c < u.width → (r, c) ∉ ps →
        fbGet u'.cells (r * u.width + c) = fbGet u.cells (r * u.width + c)) := by
  obtain ⟨res, h1, h2, h3, h4⟩ := writes_loop
    (fun (p : Nat × Nat) => get_index u p.1 p.2) (fun _ => true) ps u.cells
    (fun p hp => by
      obtain ⟨hp1, hp2⟩ := hps p hp
      show get_index u p.1 p.2 < u.cells.length
      rw [gidx_elim u hU hp1 hp2, hlen]
      exact idx_lt hp1 hp2)
    (fun _ _ _ _ _ => rfl)
  refine ⟨{ u with cells := res }, ?_, rfl, rfl, ?_, ?_⟩
  · unfold set_cells
    rw [h1]
    rfl
  · intro p hp
    have := h3 p hp
    rwa [gidx_elim u hU (hps p hp).1 (hps p hp).2] at this
  · intro r c hrn hcn hnot
    rw [← gidx_elim u hU hrn hcn]
    refine h4 _ (fun p hp heq => hnot ?_)
    obtain ⟨h1', h2'⟩ := (gidx_inj u hU (hps p hp).1 (hps p hp).2 hrn hcn).mp heq
    have : p = (r, c) := Prod.ext h1' h2'
    rwa [this] at hp

/-- Witness for C9: marking (0,1) and (1,0) on a 2×2 universe. -/
theorem c9_set_cells_frame_witness :
    ∃ u', set_cells ⟨2, 2, [true, false, false, false]⟩ [(0, 1), (1, 0)] = some u' ∧
      u'.width = (⟨2, 2, [true, false, false, false]⟩ : Universe).width ∧
      u'.height = (⟨2, 2, [true, false, false, false]⟩ : Universe).height ∧
      (∀ p ∈ [((0 : Nat), (1 : Nat)), (1, 0)],
        fbGet u'.cells (p.1 * (⟨2, 2, [true, false, false, false]⟩ : Universe).width + p.2) = true) ∧
      (∀ r c, r < (⟨2, 2, [true, false, false, false]⟩ : Universe).height →
        c < (⟨2, 2, [true, false, false, false]⟩ : Universe).width →
        (r, c) ∉ [((0 : Nat), (1 : Nat)), (1, 0)] →
        fbGet u'.cells (r * (⟨2, 2, [true, false, false, false]⟩ : Universe).width + c) =
          fbGet (⟨2, 2, [true, false, false, false]⟩ : Universe).cells
            (r * (⟨2, 2, [true, false, false, false]⟩ : Universe).width + c)) :=
  c9_set_cells_frame ⟨2, 2, [true, false, false, false]⟩ [(0, 1), (1, 0)]
    (by decide) (by decide) (by decide)

/-! ## C5: out-of-bounds pattern stamps -/

/-- C5 counterexample: on a 3×1 universe (one row), the glider guard's
`self.height - 2` wraps to `2^32 - 1` in u32 arithmetic, so
`insert_glider(1, 1)` passes the guard although its 3×3 box cannot fit;
the stamp loop then indexes row 1 of a 1-row grid and the bit-set write
panics — the call crashes instead of being a silent no-op. -/
theorem c5_counterexample :
    insert_glider ⟨3, 1, [false, false, false]⟩ 1 1 = none := by decide

/-- C5 (amended): provided the dimensions are large enough for the
guard's u32 subtractions not to wrap (`height, width ≥ 2` for the
glider; `height, width ≥ 8` for the pulsar), a stamp whose bounding box
does not lie fully within the grid is a silent no-op: the universe is
returned unchanged, with no wrapping and no clipping. -/
theorem c5_stamp_out_of_bounds_is_noop (u : Universe) (row col : Nat)
    (hh : 2 ≤ u.height) (hw : 2 ≤ u.width)
    (hhU : u.height ≤ U32) (hwU : u.width ≤ U32) :
    (¬(1 ≤ row ∧ row ≤ u.height - 2 ∧ 1 ≤ col ∧ col ≤ u.width - 2) →
      insert_glider u row col = some u) ∧
    (8 ≤ u.height → 8 ≤ u.width →
      ¬(7 ≤ row ∧ row ≤ u.height - 8 ∧ 7 ≤ col ∧ col ≤ u.width - 8) →
      insert_pulsar u row col = some u) := by
  constructor
  · intro hob
    unfold insert_glider
    rw [u32sub_eq (by omega) hh hhU, u32sub_eq (by omega) hw hwU,
      if_pos (by omega)]
  · intro h8h h8w hob
    unfold insert_pulsar
    rw [u32sub_eq (by omega) h8h hhU, u32sub_eq (by omega) h8w hwU,
      if_pos (by omega)]

/-- Witness for the amended C5: stamping at (0,0) on an empty 16×16
universe is rejected by both guards and changes nothing. -/
theorem c5_stamp_out_of_bounds_is_noop_witness :
    insert_glider ⟨16, 16, List.replicate 256 false⟩ 0 0 =
        some ⟨16, 16, List.replicate 256 false⟩ ∧
      insert_pulsar ⟨16, 16, List.replicate 256 false⟩ 0 0 =
        some ⟨16, 16, List.replicate 256 false⟩ := by
  have h := c5_stamp_out_of_bounds_is_noop ⟨16, 16, List.replicate 256 false⟩ 0 0
    (by decide) (by decide) (by decide) (by decide)
  exact ⟨h.1 (by decide), h.2 (by decide) (by decide) (by decide)⟩

/-! ## C6: out-of-range coordinates to `toggle_cell`/`set_cells` -/

/-- C6 counterexample: on a 2×2 universe, the out-of-range call
`toggle_cell(0, 2)` (column 2 ≥ width 2) performs no check and no
defined clamping: it computes raw index `0*2+2 = 2` and silently flips
the storage of the different in-range cell (1,0). -/
theorem c6_counterexample :
    toggle_cell ⟨2, 2, [false, false, false, false]⟩ 0 2 =
        some ⟨2, 2, [false, false, true, false]⟩ ∧
      fbGet (⟨2, 2, [false, false, true, false]⟩ : Universe).cells (1 * 2 + 0) ≠
        fbGet (⟨2, 2, [false, false, false, false]⟩ : Universe).cells (1 * 2 + 0) := by
  decide

/-- `set_cells` on a single coordinate whose raw index is in capacity
writes that one bit. -/
lemma set_cells_single_eq (u : Universe) (row col : Nat)
    (h : get_index u row col < u.cells.length) :
    set_cells u [(row, col)] =
      some { u with cells := u.cells.set (get_index u row col) true } := by
  unfold set_cells
  rw [List.foldlM_cons]
  rw [show fbSet u.cells (get_index u (row, col).1 (row, col).2) true =
    some (u.cells.set (get_index u row col) true) from if_pos h]
  rfl

/-- C6 (amended): out-of-range coordinates are not checked and not
clamped: `toggle_cell`/`set_cells` address the raw row-major index
`(row*width + column) mod 2^32`. When that index is below the array
length the write silently lands there — flipping/setting a different
in-range cell's storage — and when it is not, the bit-set write panics
(a crash, not an error reported to the caller). -/
theorem c6_unchecked_coords_write_raw_index (u : Universe) (row col : Nat)
    (_hoor : u.height ≤ row ∨ u.width ≤ col) :
    ((row * u.width + col) % U32 < u.cells.length →
      (∃ u', toggle_cell u row col = some u' ∧
        u'.width = u.width ∧ u'.height = u.height ∧
        fbGet u'.cells ((row * u.width + col) % U32) =
          !(fbGet u.cells ((row * u.width + col) % U32)) ∧
        (∀ i, i ≠ (row * u.width + col) % U32 →
          fbGet u'.cells i = fbGet u.cells i)) ∧
      (∃ u', set_cells u [(row, col)] = some u' ∧
        u'.width = u.width ∧ u'.height = u.height ∧
        fbGet u'.cells ((row * u.width + col) % U32) = true ∧
        (∀ i, i ≠ (row * u.width + col) % U32 →
          fbGet u'.cells i = fbGet u.cells i))) ∧
    (u.cells.length ≤ (row * u.width + col) % U32 →
      toggle_cell u row col = none ∧ set_cells u [(row, col)] = none) := by
  constructor
  · intro h
    have hidx : get_index u row col = (row * u.width + col) % U32 := rfl
    constructor
    · refine ⟨{ u with cells := toggledCells u row col },
        toggle_cell_eq u row col (by rw [hidx]; exact h), rfl, rfl, ?_, ?_⟩
      · show fbGet (toggledCells u row col) ((row * u.width + col) % U32) = _
        unfold toggledCells
        rw [hidx]
        exact fbGet_set_self u.cells _ _ h
      · intro i hi
        show fbGet (toggledCells u row col) i = fbGet u.cells i
        unfold toggledCells
        rw [hidx]
        exact fbGet_set_ne u.cells _ i _ (fun hx => hi hx.symm)
    · refine ⟨{ u with cells := u.cells.set (get_index u row col) true },
        set_cells_single_eq u row col (by rw [hidx]; exact h), rfl, rfl, ?_, ?_⟩
      · show fbGet (u.cells.set (get_index u row col) true)
          ((row * u.width + col) % U32) = true
        rw [hidx]
        exact fbGet_set_self u.cells _ _ h
      · intro i hi
        show fbGet (u.cells.set (get_index u row col) true) i = fbGet u.cells i
        rw [hidx]
        exact fbGet_set_ne u.cells _ i _ (fun hx => hi hx.symm)
  · intro h
    have hni : ¬(get_index u row col < u.cells.length) := by
      unfold get_index
      omega
    constructor
    · simp [toggle_cell, fbSet, hni]
    · simp [set_cells, fbSet, hni, List.foldlM_cons, List.foldlM_nil]

/-- Witness for the amended C6 at the counterexample's input: the raw
index of (0,2) on the 2×2 universe is 2, inside the 4-bit array, so both
`toggle_cell` and `set_cells` silently write cell (1,0). -/
theorem c6_unchecked_coords_write_raw_index_witness :
    ((0 * (2 : Nat) + 2) % U32 <
        (⟨2, 2, [false, false, false, false]⟩ : Universe).cells.length →
      (∃ u', toggle_cell ⟨2, 2, [false, false, false, false]⟩ 0 2 = some u' ∧
        u'.width = (⟨2, 2, [false, false, false, false]⟩ : Universe).width ∧
        u'.height = (⟨2, 2, [false, false, false, false]⟩ : Universe).height ∧
        fbGet u'.cells ((0 * 2 + 2) % U32) =
          !(fbGet (⟨2, 2, [false, false, false, false]⟩ : Universe).cells
            ((0 * 2 + 2) % U32)) ∧
        (∀ i, i ≠ (0 * 2 + 2) % U32 →
          fbGet u'.cells i =
            fbGet (⟨2, 2, [false, false, false, false]⟩ : Universe).cells i)) ∧
      (∃ u', set_cells ⟨2, 2, [false, false, false, false]⟩ [(0, 2)] = some u' ∧
        u'.width = (⟨2, 2, [false, false, false, false]⟩ : Universe).width ∧
        u'.height = (⟨2, 2, [false, false, false, false]⟩ : Universe).height ∧
        fbGet u'.cells ((0 * 2 + 2) % U32) = true ∧
        (∀ i, i ≠ (0 * 2 + 2) % U32 →
          fbGet u'.cells i =
            fbGet (⟨2, 2, [false, false, false, false]⟩ : Universe).cells i))) ∧
    ((⟨2, 2, [false, false, false, false]⟩ : Universe).cells.length ≤
        (0 * 2 + 2) % U32 →
      toggle_cell ⟨2, 2, [false, false, false, false]⟩ 0 2 = none ∧
        set_cells ⟨2, 2, [false, false, false, false]⟩ [(0, 2)] = none) :=
  c6_unchecked_coords_write_raw_index ⟨2, 2, [false, false, false, false]⟩ 0 2
    (by decide)

/-! ## C3: `render` walks the packed u32 blocks, not the cells -/

/-- C3 (code bug): on the all-dead 64×64 universe (the shape `new`
produces), `render` emits 2 newline-terminated lines — one glyph per
packed u32 block, 128 blocks chunked into rows of `width = 64` — instead
of the spec's 64 lines of 64 per-cell glyphs. The `Display` impl reads
`cells.as_slice().chunks(width)` and compares whole blocks to 0, a
leftover from a pre-bit-packing cell layout. -/
lemma chunksOfAux_replicate {α : Type} (a : α) (n : Nat) (hn : 1 ≤ n) :
    ∀ (k fuel : Nat), n * k ≤ fuel →
      chunksOfAux fuel n (List.replicate (n * k) a) =
        List.replicate k (List.replicate n a) := by
  intro k
  induction k with
  | zero => intro fuel _; rw [Nat.mul_zero]; cases fuel <;> rfl
  | succ k ih =>
    intro fuel hfuel
    rw [Nat.mul_succ] at hfuel ⊢
    have hsum : n * k + n = (n * k + (n - 1)) + 1 := by omega
    obtain ⟨f, rfl⟩ : ∃ f, fuel = f + 1 := ⟨fuel - 1, by omega⟩
    rw [hsum, List.replicate_succ]
    show (a :: List.replicate (n * k + (n - 1)) a).take n ::
        chunksOfAux f n ((List.replicate (n * k + (n - 1)) a).drop (n - 1)) =
      List.replicate (k + 1) (List.replicate n a)
    rw [List.drop_replicate]
    have hdrop : n * k + (n - 1) - (n - 1) = n * k := by omega
    rw [hdrop, ← List.replicate_succ, ← hsum, List.take_replicate]
    have hmin : min n (n * k + n) = n := by omega
    rw [hmin, ih f (by omega), List.replicate_succ]

lemma chunksOf_replicate {α : Type} (a : α) (n k : Nat) (hn : 1 ≤ n) :
    chunksOf n (List.replicate (n * k) a) = List.replicate k (List.replicate n a) := by
  unfold chunksOf
  rw [List.length_replicate]
  exact chunksOfAux_replicate a n hn k (n * k) (le_refl _)

lemma blockVal_replicate_false (m : Nat) :
    blockVal (List.replicate m false) = 0 := by
  induction m with
  | zero => rfl
  | succ m ih =>
    rw [List.replicate_succ]
    show Bool.toNat false + 2 * blockVal (List.replicate m false) = 0
    rw [ih]
    rfl

/-- C3 (code bug): on the all-dead 64×64 universe (the shape `new`
produces), `render` emits 2 newline-terminated lines — one glyph per
packed u32 block, 128 blocks chunked into rows of `width = 64` — instead
of the spec's 64 lines of 64 per-cell glyphs. The `Display` impl reads
`cells.as_slice().chunks(width)` and compares whole blocks to 0, a
leftover from a pre-bit-packing cell layout. -/
theorem c3_render_counts_blocks_not_cells :
    ((render ⟨64, 64, List.replicate 4096 false⟩).map
        (fun s => s.data.count '\n')) = some 2 ∧
      (⟨64, 64, List.replicate 4096 false⟩ : Universe).height = 64 := by
  refine ⟨?_, rfl⟩
  have hblocks : fbBlocks (List.replicate 4096 false) = List.replicate 128 0 := by
    unfold fbBlocks
    rw [show (4096 : Nat) = 32 * 128 from rfl, chunksOf_replicate false 32 128 (by omega),
      List.map_replicate, blockVal_replicate_false]
  have hchunks : chunksOf (64 : Nat) (List.replicate 128 (0 : Nat)) =
      List.replicate 2 (List.replicate 64 0) := by
    rw [show (128 : Nat) = 64 * 2 from rfl]
    exact chunksOf_replicate 0 64 2 (by omega)
  show ((render ⟨64, 64, List.replicate 4096 false⟩).map
    (fun s => s.data.count '\n')) = some 2
  unfold render
  rw [if_neg (by decide)]
  show some (String.join ((chunksOf (64 : Nat) (fbBlocks (List.replicate 4096 false))).map
    (fun line => String.mk (line.map (fun cell => if cell = 0 then '◻' else '◼')) ++ "\n"))
    |>.data.count '\n') = some 2
  rw [hblocks, hchunks, List.map_replicate]
  rw [List.map_replicate]
  rw [show ((if (0 : Nat) = 0 then '◻' else '◼')) = '◻' from rfl]
  decide

/-! ## C7: the blinker oscillates with period two -/

lemma if_nat_cases {p : Prop} [Decidable p] {a b x : Nat}
    (h : (if p then a else b) = x) : (p ∧ x = a) ∨ (¬p ∧ x = b) := by
  by_cases hp : p
  · rw [if_pos hp] at h
    exact Or.inl ⟨hp, h.symm⟩
  · rw [if_neg hp] at h
    exact Or.inr ⟨hp, h.symm⟩

lemma dtn_zero {p : Prop} [Decidable p] (h : ¬p) : (decide p).toNat = 0 := by
  simp [h]

lemma dtn_and_left {p q : Prop} [Decidable p] [Decidable q] (hp : p) :
    (decide (p ∧ q)).toNat = (decide q).toNat := by
  by_cases hq : q <;> simp [hp, hq]

lemma dtn_cases (p : Prop) [Decidable p] :
    (p ∧ (decide p).toNat = 1) ∨ (¬p ∧ (decide p).toNat = 0) := by
  by_cases h : p <;> simp [h]

lemma dtn_congr {p q : Prop} [Decidable p] [Decidable q] (h : p ↔ q) :
    (decide p).toNat = (decide q).toNat :=
  congrArg Bool.toNat (decide_eq_decide.mpr h)

lemma dtn_and3 {p : Prop} [Decidable p] {x b₁ b₂ b₃ : Nat} (hp : p) :
    (decide (p ∧ (x = b₁ ∨ x = b₂ ∨ x = b₃))).toNat =
      (decide (x = b₁ ∨ x = b₂ ∨ x = b₃)).toNat :=
  dtn_and_left hp

lemma dtn_ne_and3 {x a : Nat} (h : x ≠ a) {y b₁ b₂ b₃ : Nat} :
    (decide (x = a ∧ (y = b₁ ∨ y = b₂ ∨ y = b₃))).toNat = 0 :=
  dtn_zero (fun hh => h hh.1)

lemma decide_ne_and3 {x a : Nat} (h : x ≠ a) {y b₁ b₂ b₃ : Nat} :
    decide (x = a ∧ (y = b₁ ∨ y = b₂ ∨ y = b₃)) = false :=
  decide_eq_false (fun hh => h hh.1)

lemma decide_eq_and3 {x a : Nat} (h : x = a) {y b₁ b₂ b₃ : Nat} :
    decide (x = a ∧ (y = b₁ ∨ y = b₂ ∨ y = b₃)) =
      decide (y = b₁ ∨ y = b₂ ∨ y = b₃) :=
  decide_eq_decide.mpr ⟨fun hh => hh.2, fun hm => ⟨h, hm⟩⟩

lemma nextState_false (n : Nat) : nextState false n = decide (n = 3) := by
  unfold nextState
  split_ifs <;> simp_all

lemma nextState_true (n : Nat) : nextState true n = decide (n = 2 ∨ n = 3) := by
  unfold nextState
  split_ifs <;> simp_all <;> omega

lemma rowmajor_row3_iff {w pr pc a b₁ b₂ b₃ : Nat} (hpc : pc < w)
    (h₁ : b₁ < w) (h₂ : b₂ < w) (h₃ : b₃ < w) :
    (pr * w + pc = a * w + b₁ ∨ pr * w + pc = a * w + b₂ ∨
      pr * w + pc = a * w + b₃) ↔ (pr = a ∧ (pc = b₁ ∨ pc = b₂ ∨ pc = b₃)) := by
  rw [rowmajor_inj hpc h₁, rowmajor_inj hpc h₂, rowmajor_inj hpc h₃]
  tauto

lemma rowmajor_col3_iff {w pr pc a₁ a₂ a₃ b : Nat} (hpc : pc < w) (hb : b < w) :
    (pr * w + pc = a₁ * w + b ∨ pr * w + pc = a₂ * w + b ∨
      pr * w + pc = a₃ * w + b) ↔ (pc = b ∧ (pr = a₁ ∨ pr = a₂ ∨ pr = a₃)) := by
  rw [rowmajor_inj hpc hb, rowmajor_inj hpc hb, rowmajor_inj hpc hb]
  tauto

lemma gidx_row3_iff (u : Universe) (hU : u.width * u.height ≤ U32)
    {pr pc a b₁ b₂ b₃ : Nat} (hpr : pr < u.height) (hpc : pc < u.width)
    (ha : a < u.height) (h₁ : b₁ < u.width) (h₂ : b₂ < u.width) (h₃ : b₃ < u.width) :
    (get_index u pr pc = a * u.width + b₁ ∨ get_index u pr pc = a * u.width + b₂ ∨
      get_index u pr pc = a * u.width + b₃) ↔
      (pr = a ∧ (pc = b₁ ∨ pc = b₂ ∨ pc = b₃)) := by
  rw [gidx_elim u hU hpr hpc]
  exact rowmajor_row3_iff hpc h₁ h₂ h₃

lemma gidx_col3_iff (u : Universe) (hU : u.width * u.height ≤ U32)
    {pr pc a₁ a₂ a₃ b : Nat} (hpr : pr < u.height) (hpc : pc < u.width)
    (hb : b < u.width) :
    (get_index u pr pc = a₁ * u.width + b ∨ get_index u pr pc = a₂ * u.width + b ∨
      get_index u pr pc = a₃ * u.width + b) ↔
      (pc = b ∧ (pr = a₁ ∨ pr = a₂ ∨ pr = a₃)) := by
  rw [gidx_elim u hU hpr hpc]
  exact rowmajor_col3_iff hpc hb

lemma dtn_gidx_row3 (u : Universe) (hU : u.width * u.height ≤ U32)
    {pr pc a b₁ b₂ b₃ : Nat} (hpr : pr < u.height) (hpc : pc < u.width)
    (_ha : a < u.height) (h₁ : b₁ < u.width) (h₂ : b₂ < u.width) (h₃ : b₃ < u.width) :
    (decide (get_index u pr pc = a * u.width + b₁ ∨
        get_index u pr pc = a * u.width + b₂ ∨
        get_index u pr pc = a * u.width + b₃)).toNat =
      (decide (pr = a ∧ (pc = b₁ ∨ pc = b₂ ∨ pc = b₃))).toNat :=
  dtn_congr (gidx_row3_iff u hU hpr hpc _ha h₁ h₂ h₃)

lemma dtn_gidx_col3 (u : Universe) (hU : u.width * u.height ≤ U32)
    {pr pc a₁ a₂ a₃ b : Nat} (hpr : pr < u.height) (hpc : pc < u.width)
    (hb : b < u.width) :
    (decide (get_index u pr pc = a₁ * u.width + b ∨
        get_index u pr pc = a₂ * u.width + b ∨
        get_index u pr pc = a₃ * u.width + b)).toNat =
      (decide (pc = b ∧ (pr = a₁ ∨ pr = a₂ ∨ pr = a₃))).toNat :=
  dtn_congr (gidx_col3_iff u hU hpr hpc hb)

lemma decide_rowmajor_row3 {w pr pc a b₁ b₂ b₃ : Nat} (hpc : pc < w)
    (h₁ : b₁ < w) (h₂ : b₂ < w) (h₃ : b₃ < w) :
    decide (pr * w + pc = a * w + b₁ ∨ pr * w + pc = a * w + b₂ ∨
        pr * w + pc = a * w + b₃) =
      decide (pr = a ∧ (pc = b₁ ∨ pc = b₂ ∨ pc = b₃)) :=
  decide_eq_decide.mpr (rowmajor_row3_iff hpc h₁ h₂ h₃)

lemma decide_rowmajor_col3 {w pr pc a₁ a₂ a₃ b : Nat} (hpc : pc < w) (hb : b < w) :
    decide (pr * w + pc = a₁ * w + b ∨ pr * w + pc = a₂ * w + b ∨
        pr * w + pc = a₃ * w + b) =
      decide (pc = b ∧ (pr = a₁ ∨ pr = a₂ ∨ pr = a₃)) :=
  decide_eq_decide.mpr (rowmajor_col3_iff hpc hb)

lemma exists_rowcol {w h i : Nat} (hi : i < w * h) :
    ∃ row col, row < h ∧ col < w ∧ i = row * w + col := by
  have hw : 0 < w := by
    rcases Nat.eq_zero_or_pos w with rfl | hw
    · simp at hi
    · exact hw
  have hmod := Nat.div_add_mod i w
  refine ⟨i / w, i % w, ?_, Nat.mod_lt _ hw, ?_⟩
  · rw [Nat.div_lt_iff_lt_mul hw, Nat.mul_comm h w] at *
    omega
  · rw [Nat.mul_comm (i / w) w]
    omega

/-- Neighbour-membership sum over a full wrapped 3-window
(predecessor, self, successor) of `col` against the window
`{c-1, c, c+1}`: it is 3 exactly at `col = c`. -/
lemma blinker_sum3 {w col c west east : Nat}
    (hc2 : 2 ≤ c) (hc3 : c + 3 ≤ w) (hcol : col < w)
    (hw' : col = 0 ∧ west = w - 1 ∨ ¬col = 0 ∧ west = col - 1)
    (he' : col = w - 1 ∧ east = 0 ∨ ¬col = w - 1 ∧ east = col + 1) :
    ((decide (west = c - 1 ∨ west = c ∨ west = c + 1)).toNat +
      (decide (col = c - 1 ∨ col = c ∨ col = c + 1)).toNat +
      (decide (east = c - 1 ∨ east = c ∨ east = c + 1)).toNat = 3) ↔ col = c := by
  have d1 := dtn_cases (west = c - 1 ∨ west = c ∨ west = c + 1)
  have d2 := dtn_cases (col = c - 1 ∨ col = c ∨ col = c + 1)
  have d3 := dtn_cases (east = c - 1 ∨ east = c ∨ east = c + 1)
  omega

/-- Two-sided membership sum (predecessor and successor only), when the
cell itself lies in the window: 2 or 3 exactly at `col = c`. -/
lemma blinker_sum2_mem {w col c west east : Nat}
    (hc2 : 2 ≤ c) (hc3 : c + 3 ≤ w) (hcol : col < w)
    (hw' : col = 0 ∧ west = w - 1 ∨ ¬col = 0 ∧ west = col - 1)
    (he' : col = w - 1 ∧ east = 0 ∨ ¬col = w - 1 ∧ east = col + 1)
    (hmc : col = c - 1 ∨ col = c ∨ col = c + 1) :
    ((decide (west = c - 1 ∨ west = c ∨ west = c + 1)).toNat +
        (decide (east = c - 1 ∨ east = c ∨ east = c + 1)).toNat = 2 ∨
      (decide (west = c - 1 ∨ west = c ∨ west = c + 1)).toNat +
        (decide (east = c - 1 ∨ east = c ∨ east = c + 1)).toNat = 3) ↔ col = c := by
  have d1 := dtn_cases (west = c - 1 ∨ west = c ∨ west = c + 1)
  have d3 := dtn_cases (east = c - 1 ∨ east = c ∨ east = c + 1)
  omega

/-- Two-sided membership sum when the cell itself is outside the
window: it is never 3, and `col = c` is impossible. -/
lemma blinker_sum2_nomem {w col c west east : Nat}
    (hc2 : 2 ≤ c) (hc3 : c + 3 ≤ w) (hcol : col < w)
    (hw' : col = 0 ∧ west = w - 1 ∨ ¬col = 0 ∧ west = col - 1)
    (he' : col = w - 1 ∧ east = 0 ∨ ¬col = w - 1 ∧ east = col + 1)
    (hmc : ¬(col = c - 1 ∨ col = c ∨ col = c + 1)) :
    ((decide (west = c - 1 ∨ west = c ∨ west = c + 1)).toNat +
      (decide (east = c - 1 ∨ east = c ∨ east = c + 1)).toNat = 3) ↔ col = c := by
  have d1 := dtn_cases (west = c - 1 ∨ west = c ∨ west = c + 1)
  have d3 := dtn_cases (east = c - 1 ∨ east = c ∨ east = c + 1)
  omega

/-- One tick of the horizontal blinker `{(r, c-1), (r, c), (r, c+1)}`,
cell by cell: the new state is the vertical blinker
`{(r-1, c), (r, c), (r+1, c)}`. -/
lemma blinker_cell_h (u : Universe) (r c : Nat)
    (hU : u.width * u.height ≤ U32)
    (hr2 : 2 ≤ r) (hr3 : r + 3 ≤ u.height) (hc2 : 2 ≤ c) (hc3 : c + 3 ≤ u.width)
    (hcells : ∀ i, fbGet u.cells i = decide (i = r * u.width + (c - 1) ∨
      i = r * u.width + c ∨ i = r * u.width + (c + 1)))
    (row col : Nat) (hrow : row < u.height) (hcol : col < u.width) :
    nextState (fbGet u.cells (row * u.width + col)) (live_neighbor_count u row col) =
      decide (row * u.width + col = (r - 1) * u.width + c ∨
        row * u.width + col = r * u.width + c ∨
        row * u.width + col = (r + 1) * u.width + c) := by
  have hhU : u.height ≤ U32 :=
    le_trans (Nat.le_mul_of_pos_left u.height (by omega)) hU
  have hwU : u.width ≤ U32 := by
    calc u.width = u.width * 1 := (Nat.mul_one _).symm
    _ ≤ u.width * u.height := Nat.mul_le_mul_left _ (by omega)
    _ ≤ U32 := hU
  have hb1 : c - 1 < u.width := by omega
  have hb2 : c < u.width := by omega
  have hb3 : c + 1 < u.width := by omega
  have ha1 : r - 1 < u.height := by omega
  have ha2 : r < u.height := by omega
  have ha3 : r + 1 < u.height := by omega
  simp only [live_neighbor_count]
  rw [show u32sub u.height 1 = u.height - 1 from
    u32sub_eq (le_refl 1) (by omega) hhU]
  rw [show u32sub u.width 1 = u.width - 1 from
    u32sub_eq (le_refl 1) (by omega) hwU]
  have hS : (if row = u.height - 1 then 0 else (row + 1) % U32) =
      (if row = u.height - 1 then 0 else row + 1) := by
    split_ifs with h
    · rfl
    · exact Nat.mod_eq_of_lt (by omega)
  have hE : (if col = u.width - 1 then 0 else (col + 1) % U32) =
      (if col = u.width - 1 then 0 else col + 1) := by
    split_ifs with h
    · rfl
    · exact Nat.mod_eq_of_lt (by omega)
  rw [hS, hE]
  generalize hN : (if row = 0 then u.height - 1 else row - 1) = north
  generalize hS' : (if row = u.height - 1 then 0 else row + 1) = south
  generalize hW : (if col = 0 then u.width - 1 else col - 1) = west
  generalize hE' : (if col = u.width - 1 then 0 else col + 1) = east
  have hn := if_nat_cases hN
  have hs := if_nat_cases hS'
  have hw' := if_nat_cases hW
  have he' := if_nat_cases hE'
  have hNlt : north < u.height := by omega
  have hSlt : south < u.height := by omega
  have hWlt : west < u.width := by omega
  have hElt : east < u.width := by omega
  simp only [hcells]
  rw [dtn_gidx_row3 u hU hNlt hWlt ha2 hb1 hb2 hb3,
    dtn_gidx_row3 u hU hNlt hcol ha2 hb1 hb2 hb3,
    dtn_gidx_row3 u hU hNlt hElt ha2 hb1 hb2 hb3,
    dtn_gidx_row3 u hU hrow hWlt ha2 hb1 hb2 hb3,
    dtn_gidx_row3 u hU hrow hElt ha2 hb1 hb2 hb3,
    dtn_gidx_row3 u hU hSlt hWlt ha2 hb1 hb2 hb3,
    dtn_gidx_row3 u hU hSlt hcol ha2 hb1 hb2 hb3,
    dtn_gidx_row3 u hU hSlt hElt ha2 hb1 hb2 hb3]
  rw [decide_rowmajor_row3 hcol hb1 hb2 hb3]
  rw [decide_rowmajor_col3 hcol hb2]
  rcases (show row + 1 = r ∨ row = r ∨ row = r + 1 ∨ (row + 1 < r ∨ r + 1 < row)
    from by omega) with hcl | hcl | hcl | hcl
  · -- row = r - 1: only the southern neighbour row carries live cells
    have hnr : north ≠ r := by omega
    have hsr : south = r := by omega
    have hrr : row ≠ r := by omega
    clear hn hs hcells hN hS' hS hE
    rw [dtn_ne_and3 hnr, dtn_ne_and3 hnr, dtn_ne_and3 hnr,
      dtn_ne_and3 hrr, dtn_ne_and3 hrr,
      dtn_and3 hsr, dtn_and3 hsr, dtn_and3 hsr,
      decide_ne_and3 hrr]
    rw [show decide (col = c ∧ (row = r - 1 ∨ row = r ∨ row = r + 1)) =
      decide (col = c) from decide_eq_decide.mpr (by omega)]
    simp only [Nat.zero_add]
    rw [nextState_false, decide_eq_decide]
    exact blinker_sum3 hc2 hc3 hcol hw' he'
  · -- row = r: the blinker's own row; only west/east neighbours count
    have hnr : north ≠ r := by omega
    have hsr : south ≠ r := by omega
    clear hn hs hcells hN hS' hS hE
    rw [dtn_ne_and3 hnr, dtn_ne_and3 hnr, dtn_ne_and3 hnr,
      dtn_and3 hcl, dtn_and3 hcl,
      dtn_ne_and3 hsr, dtn_ne_and3 hsr, dtn_ne_and3 hsr,
      decide_eq_and3 hcl]
    rw [show decide (col = c ∧ (row = r - 1 ∨ row = r ∨ row = r + 1)) =
      decide (col = c) from decide_eq_decide.mpr (by omega)]
    simp only [Nat.zero_add, Nat.add_zero]
    by_cases hmc : (col = c - 1 ∨ col = c ∨ col = c + 1)
    · rw [decide_eq_true hmc, nextState_true, decide_eq_decide]
      exact blinker_sum2_mem hc2 hc3 hcol hw' he' hmc
    · rw [decide_eq_false hmc, nextState_false, decide_eq_decide]
      exact blinker_sum2_nomem hc2 hc3 hcol hw' he' hmc
  · -- row = r + 1: only the northern neighbour row carries live cells
    have hnr : north = r := by omega
    have hsr : south ≠ r := by omega
    have hrr : row ≠ r := by omega
    clear hn hs hcells hN hS' hS hE
    rw [dtn_and3 hnr, dtn_and3 hnr, dtn_and3 hnr,
      dtn_ne_and3 hrr, dtn_ne_and3 hrr,
      dtn_ne_and3 hsr, dtn_ne_and3 hsr, dtn_ne_and3 hsr,
      decide_ne_and3 hrr]
    rw [show decide (col = c ∧ (row = r - 1 ∨ row = r ∨ row = r + 1)) =
      decide (col = c) from decide_eq_decide.mpr (by omega)]
    simp only [Nat.zero_add, Nat.add_zero]
    rw [nextState_false, decide_eq_decide]
    exact blinker_sum3 hc2 hc3 hcol hw' he'
  · -- far from the blinker: no live neighbours, the cell stays dead
    have hnr : north ≠ r := by omega
    have hsr : south ≠ r := by omega
    have hrr : row ≠ r := by omega
    have hfar : ¬(col = c ∧ (row = r - 1 ∨ row = r ∨ row = r + 1)) := by omega
    clear hn hs hcells hN hS' hS hE
    rw [dtn_ne_and3 hnr, dtn_ne_and3 hnr, dtn_ne_and3 hnr,
      dtn_ne_and3 hrr, dtn_ne_and3 hrr,
      dtn_ne_and3 hsr, dtn_ne_and3 hsr, dtn_ne_and3 hsr,
      decide_ne_and3 hrr]
    rw [decide_eq_false hfar]
    simp only [Nat.zero_add, Nat.add_zero]
    rw [nextState_false]
    decide

/-- One tick of the vertical blinker `{(r-1, c), (r, c), (r+1, c)}`,
cell by cell: the new state is the horizontal blinker
`{(r, c-1), (r, c), (r, c+1)}`. -/
lemma blinker_cell_v (u : Universe) (r c : Nat)
    (hU : u.width * u.height ≤ U32)
    (hr2 : 2 ≤ r) (hr3 : r + 3 ≤ u.height) (hc2 : 2 ≤ c) (hc3 : c + 3 ≤ u.width)
    (hcells : ∀ i, fbGet u.cells i = decide (i = (r - 1) * u.width + c ∨
      i = r * u.width + c ∨ i = (r + 1) * u.width + c))
    (row col : Nat) (hrow : row < u.height) (hcol : col < u.width) :
    nextState (fbGet u.cells (row * u.width + col)) (live_neighbor_count u row col) =
      decide (row * u.width + col = r * u.width + (c - 1) ∨
        row * u.width + col = r * u.width + c ∨
        row * u.width + col = r * u.width + (c + 1)) := by
  have hhU : u.height ≤ U32 :=
    le_trans (Nat.le_mul_of_pos_left u.height (by omega)) hU
  have hwU : u.width ≤ U32 := by
    calc u.width = u.width * 1 := (Nat.mul_one _).symm
    _ ≤ u.width * u.height := Nat.mul_le_mul_left _ (by omega)
    _ ≤ U32 := hU
  have hb1 : c - 1 < u.width := by omega
  have hb2 : c < u.width := by omega
  have hb3 : c + 1 < u.width := by omega
  have ha1 : r - 1 < u.height := by omega
  have ha2 : r < u.height := by omega
  have ha3 : r + 1 < u.height := by omega
  simp only [live_neighbor_count]
  rw [show u32sub u.height 1 = u.height - 1 from
    u32sub_eq (le_refl 1) (by omega) hhU]
  rw [show u32sub u.width 1 = u.width - 1 from
    u32sub_eq (le_refl 1) (by omega) hwU]
  have hS : (if row = u.height - 1 then 0 else (row + 1) % U32) =
      (if row = u.height - 1 then 0 else row + 1) := by
    split_ifs with h
    · rfl
    · exact Nat.mod_eq_of_lt (by omega)
  have hE : (if col = u.width - 1 then 0 else (col + 1) % U32) =
      (if col = u.width - 1 then 0 else col + 1) := by
    split_ifs with h
    · rfl
    · exact Nat.mod_eq_of_lt (by omega)
  rw [hS, hE]
  generalize hN : (if row = 0 then u.height - 1 else row - 1) = north
  generalize hS' : (if row = u.height - 1 then 0 else row + 1) = south
  generalize hW : (if col = 0 then u.width - 1 else col - 1) = west
  generalize hE' : (if col = u.width - 1 then 0 else col + 1) = east
  have hn := if_nat_cases hN
  have hs := if_nat_cases hS'
  have hw' := if_nat_cases hW
  have he' := if_nat_cases hE'
  have hNlt : north < u.height := by omega
  have hSlt : south < u.height := by omega
  have hWlt : west < u.width := by omega
  have hElt : east < u.width := by omega
  simp only [hcells]
  rw [dtn_gidx_col3 u hU hNlt hWlt hb2,
    dtn_gidx_col3 u hU hNlt hcol hb2,
    dtn_gidx_col3 u hU hNlt hElt hb2,
    dtn_gidx_col3 u hU hrow hWlt hb2,
    dtn_gidx_col3 u hU hrow hElt hb2,
    dtn_gidx_col3 u hU hSlt hWlt hb2,
    dtn_gidx_col3 u hU hSlt hcol hb2,
    dtn_gidx_col3 u hU hSlt hElt hb2]
  rw [decide_rowmajor_col3 hcol hb2]
  rw [decide_rowmajor_row3 hcol hb1 hb2 hb3]
  rcases (show col + 1 = c ∨ col = c ∨ col = c + 1 ∨ (col + 1 < c ∨ c + 1 < col)
    from by omega) with hcl | hcl | hcl | hcl
  · -- col = c - 1: only the eastern neighbour column carries live cells
    have hwc : west ≠ c := by omega
    have hcc : col ≠ c := by omega
    have hec : east = c := by omega
    clear hw' he' hcells hW hE' hS hE
    rw [dtn_ne_and3 hwc, dtn_ne_and3 hcc, dtn_and3 hec,
      dtn_ne_and3 hwc, dtn_and3 hec,
      dtn_ne_and3 hwc, dtn_ne_and3 hcc, dtn_and3 hec,
      decide_ne_and3 hcc]
    rw [show decide (row = r ∧ (col = c - 1 ∨ col = c ∨ col = c + 1)) =
      decide (row = r) from decide_eq_decide.mpr (by omega)]
    simp only [Nat.zero_add, Nat.add_zero]
    rw [nextState_false, decide_eq_decide]
    exact blinker_sum3 hr2 hr3 hrow hn hs
  · -- col = c: the blinker's own column; only north/south neighbours count
    have hwc : west ≠ c := by omega
    have hec : east ≠ c := by omega
    clear hw' he' hcells hW hE' hS hE
    rw [dtn_ne_and3 hwc, dtn_and3 hcl, dtn_ne_and3 hec,
      dtn_ne_and3 hwc, dtn_ne_and3 hec,
      dtn_ne_and3 hwc, dtn_and3 hcl, dtn_ne_and3 hec,
      decide_eq_and3 hcl]
    rw [show decide (row = r ∧ (col = c - 1 ∨ col = c ∨ col = c + 1)) =
      decide (row = r) from decide_eq_decide.mpr (by omega)]
    simp only [Nat.zero_add, Nat.add_zero]
    by_cases hmr : (row = r - 1 ∨ row = r ∨ row = r + 1)
    · rw [decide_eq_true hmr, nextState_true, decide_eq_decide]
      exact blinker_sum2_mem hr2 hr3 hrow hn hs hmr
    · rw [decide_eq_false hmr, nextState_false, decide_eq_decide]
      exact blinker_sum2_nomem hr2 hr3 hrow hn hs hmr
  · -- col = c + 1: only the western neighbour column carries live cells
    have hwc : west = c := by omega
    have hcc : col ≠ c := by omega
    have hec : east ≠ c := by omega
    clear hw' he' hcells hW hE' hS hE
    rw [dtn_and3 hwc, dtn_ne_and3 hcc, dtn_ne_and3 hec,
      dtn_and3 hwc, dtn_ne_and3 hec,
      dtn_and3 hwc, dtn_ne_and3 hcc, dtn_ne_and3 hec,
      decide_ne_and3 hcc]
    rw [show decide (row = r ∧ (col = c - 1 ∨ col = c ∨ col = c + 1)) =
      decide (row = r) from decide_eq_decide.mpr (by omega)]
    simp only [Nat.zero_add, Nat.add_zero]
    rw [nextState_false, decide_eq_decide]
    exact blinker_sum3 hr2 hr3 hrow hn hs
  · -- far from the blinker: no live neighbours, the cell stays dead
    have hwc : west ≠ c := by omega
    have hcc : col ≠ c := by omega
    have hec : east ≠ c := by omega
    have hfar : ¬(row = r ∧ (col = c - 1 ∨ col = c ∨ col = c + 1)) := by omega
    clear hw' he' hcells hW hE' hS hE
    rw [dtn_ne_and3 hwc, dtn_ne_and3 hcc, dtn_ne_and3 hec,
      dtn_ne_and3 hwc, dtn_ne_and3 hec,
      dtn_ne_and3 hwc, dtn_ne_and3 hcc, dtn_ne_and3 hec,
      decide_ne_and3 hcc]
    rw [decide_eq_false hfar]
    simp only [Nat.zero_add, Nat.add_zero]
    rw [nextState_false]
    decide

lemma Universe.ext' {u v : Universe} (h₁ : u.width = v.width)
    (h₂ : u.height = v.height) (h₃ : u.cells = v.cells) : u = v := by
  cases u
  cases v
  simp_all

/-- One `tick` turns a horizontal blinker into the vertical blinker. -/
lemma blinker_step_h (u : Universe) (r c : Nat)
    (hlen : u.cells.length = u.width * u.height)
    (hU : u.width * u.height ≤ U32)
    (hr2 : 2 ≤ r) (hr3 : r + 3 ≤ u.height) (hc2 : 2 ≤ c) (hc3 : c + 3 ≤ u.width)
    (hcells : ∀ i, fbGet u.cells i = decide (i = r * u.width + (c - 1) ∨
      i = r * u.width + c ∨ i = r * u.width + (c + 1))) :
    ∃ u₁, tick u = some u₁ ∧ u₁.width = u.width ∧ u₁.height = u.height ∧
      u₁.cells.length = u.cells.length ∧
      ∀ i, fbGet u₁.cells i = decide (i = (r - 1) * u.width + c ∨
        i = r * u.width + c ∨ i = (r + 1) * u.width + c) := by
  obtain ⟨u₁, h1, h2, h3, h4, h5⟩ := tick_spec u hlen hU
  refine ⟨u₁, h1, h2, h3, h4, ?_⟩
  intro i
  by_cases hi : i < u.width * u.height
  · obtain ⟨row, col, hrow, hcol, rfl⟩ := exists_rowcol hi
    rw [h5 row col hrow hcol]
    exact blinker_cell_h u r c hU hr2 hr3 hc2 hc3 hcells row col hrow hcol
  · have hoob : u₁.cells.length ≤ i := by
      rw [h4, hlen]
      omega
    have n1 : (r - 1) * u.width + c < u.width * u.height :=
      idx_lt (by omega) (by omega)
    have n2 : r * u.width + c < u.width * u.height :=
      idx_lt (by omega) (by omega)
    have n3 : (r + 1) * u.width + c < u.width * u.height :=
      idx_lt (by omega) (by omega)
    rw [fbGet_oob _ hoob]
    exact (decide_eq_false (by omega)).symm

/-- One `tick` turns a vertical blinker into the horizontal blinker. -/
lemma blinker_step_v (u : Universe) (r c : Nat)
    (hlen : u.cells.length = u.width * u.height)
    (hU : u.width * u.height ≤ U32)
    (hr2 : 2 ≤ r) (hr3 : r + 3 ≤ u.height) (hc2 : 2 ≤ c) (hc3 : c + 3 ≤ u.width)
    (hcells : ∀ i, fbGet u.cells i = decide (i = (r - 1) * u.width + c ∨
      i = r * u.width + c ∨ i = (r + 1) * u.width + c)) :
    ∃ u₁, tick u = some u₁ ∧ u₁.width = u.width ∧ u₁.height = u.height ∧
      u₁.cells.length = u.cells.length ∧
      ∀ i, fbGet u₁.cells i = decide (i = r * u.width + (c - 1) ∨
        i = r * u.width + c ∨ i = r * u.width + (c + 1)) := by
  obtain ⟨u₁, h1, h2, h3, h4, h5⟩ := tick_spec u hlen hU
  refine ⟨u₁, h1, h2, h3, h4, ?_⟩
  intro i
  by_cases hi : i < u.width * u.height
  · obtain ⟨row, col, hrow, hcol, rfl⟩ := exists_rowcol hi
    rw [h5 row col hrow hcol]
    exact blinker_cell_v u r c hU hr2 hr3 hc2 hc3 hcells row col hrow hcol
  · have hoob : u₁.cells.length ≤ i := by
      rw [h4, hlen]
      omega
    have n1 : r * u.width + (c - 1) < u.width * u.height :=
      idx_lt (by omega) (by omega)
    have n2 : r * u.width + c < u.width * u.height :=
      idx_lt (by omega) (by omega)
    have n3 : r * u.width + (c + 1) < u.width * u.height :=
      idx_lt (by omega) (by omega)
    rw [fbGet_oob _ hoob]
    exact (decide_eq_false (by omega)).symm

/-- C7: a horizontal blinker `{(r, c-1), (r, c), (r, c+1)}` with margin 2
from every edge, on an otherwise dead well-formed universe, becomes the
vertical line `{(r-1, c), (r, c), (r+1, c)}` after one `tick` (all other
cells Dead), and a second `tick` restores exactly the original universe:
`tick ∘ tick` is the identity on this state. -/
theorem c7_blinker_period_two (u : Universe) (r c : Nat)
    (hlen : u.cells.length = u.width * u.height)
    (hU : u.width * u.height ≤ U32)
    (hr2 : 2 ≤ r) (hr3 : r + 3 ≤ u.height) (hc2 : 2 ≤ c) (hc3 : c + 3 ≤ u.width)
    (hcells : ∀ i, fbGet u.cells i = decide (i = r * u.width + (c - 1) ∨
      i = r * u.width + c ∨ i = r * u.width + (c + 1))) :
    ∃ u₁ u₂, tick u = some u₁ ∧ tick u₁ = some u₂ ∧
      (∀ i, fbGet u₁.cells i = decide (i = (r - 1) * u.width + c ∨
        i = r * u.width + c ∨ i = (r + 1) * u.width + c)) ∧
      u₂ = u := by
  obtain ⟨u₁, h1, hw1, hh1, hl1, hv⟩ :=
    blinker_step_h u r c hlen hU hr2 hr3 hc2 hc3 hcells
  obtain ⟨u₂, h2, hw2, hh2, hl2, hh⟩ :=
    blinker_step_v u₁ r c
      (by rw [hl1, hlen, hw1, hh1]) (by rw [hw1, hh1]; exact hU)
      hr2 (by rw [hh1]; exact hr3) hc2 (by rw [hw1]; exact hc3)
      (by rw [hw1]; exact hv)
  refine ⟨u₁, u₂, h1, h2, hv, ?_⟩
  have hcells₂ : u₂.cells = u.cells := by
    refine eq_of_fbGet _ _ (by rw [hl2, hl1]) (fun i => ?_)
    rw [hh i, hcells i, hw1]
  exact Universe.ext' (by rw [hw2, hw1]) (by rw [hh2, hh1]) hcells₂

/-- The 5×5 grid holding a horizontal blinker centred at (2,2). -/
def blinker5 : Universe :=
  ⟨5, 5, [false, false, false, false, false,
          false, false, false, false, false,
          false, true, true, true, false,
          false, false, false, false, false,
          false, false, false, false, false]⟩

/-- Witness for C7: the concrete 5×5 blinker oscillates with period 2. -/
theorem c7_blinker_period_two_witness :
    ∃ u₁ u₂, tick blinker5 = some u₁ ∧ tick u₁ = some u₂ ∧
      (∀ i, fbGet u₁.cells i = decide (i = (2 - 1) * blinker5.width + 2 ∨
        i = 2 * blinker5.width + 2 ∨ i = (2 + 1) * blinker5.width + 2)) ∧
      u₂ = blinker5 :=
  c7_blinker_period_two blinker5 2 2 (by decide) (by decide) (by decide)
    (by decide) (by decide) (by decide)
    (fun i => by
      by_cases hi : i < 25
      · interval_cases i <;> decide
      · rw [fbGet_oob _ (by simp [blinker5]; omega)]
        exact (decide_eq_false (by simp [blinker5]; omega)).symm)

end GameOfLife
